import Mathlib

/-!
Verification of the range-matching and cascading-filter query engine of
src/app.py (a Flask application over a spreadsheet row store).

The embedding below translates the Python functions into Lean:

* records (Python dicts of string fields with dict.get defaulting to "")
  become association lists wrapped in a structure, looked up by
  Record.get with default "";
* Python floats become exact rationals (the spec speaks of real numbers;
  every numeric literal the parser accepts is a finite decimal);
* the regular expression character class of digits and dots in
  re.findall of the pattern of one-or-more digit-or-dot characters is
  modelled by isNumChar (the Python shorthand for a digit is modelled as
  an ASCII digit, the only kind occurring in this application);
* Python float(s) applied to a digit-or-dot string succeeds exactly when
  the string holds at least one digit and at most one dot, which pyFloat?
  reproduces, returning the exact decimal value;
* a missing HTTP query argument is modelled as Option.none, and the
  request.args.get with default "" followed by strip() is getArg.
-/

/-- One spreadsheet row: a mapping from field name to field value, as
produced by get_magnetic_rows / get_transmitter_rows in src/app.py
(all values already strings). -/
structure Record where
  fields : List (String × String)
deriving DecidableEq, Repr

/-- Python row.get(k, "") : the value of field k, or "" when absent. -/
def Record.get (r : Record) (k : String) : String :=
  match r.fields.find? (fun p => p.1 == k) with
  | some p => p.2
  | none => ""

/-- A character matched by the numeric character class of parse_range
(a digit or a dot). -/
def isNumChar (c : Char) : Bool :=
  c.isDigit || c == '.'

/-- Helper for findallNum: splits a character list into the maximal runs
of numeric characters, accumulating the current run (reversed) in acc. -/
def numRunsAux : List Char → List Char → List (List Char)
  | [], acc => if acc = [] then [] else [acc.reverse]
  | c :: cs, acc =>
    if isNumChar c then
      numRunsAux cs (c :: acc)
    else if acc = [] then
      numRunsAux cs []
    else
      acc.reverse :: numRunsAux cs []

/-- Model of re.findall of the digit-or-dot pattern in src/app.py line 97:
the maximal substrings of consecutive digit-or-dot characters, in
left-to-right order. -/
def findallNum (s : String) : List String :=
  (numRunsAux s.data []).map (fun l => String.mk l)

/-- The value of a list of decimal digits read in base 10. -/
def digitsToNat (l : List Char) : Nat :=
  l.foldl (fun a c => a * 10 + (c.toNat - 48)) 0

/-- Model of Python float(s) on strings made of digits and dots (the only
strings parse_range passes to it): succeeds if and only if the string has
at least one digit and at most one dot, and returns the exact decimal
value. Returns none where Python float raises ValueError. -/
def pyFloat? (s : String) : Option Rat :=
  let l := s.data
  if l.any Char.isDigit && l.all isNumChar && decide (l.countP (fun c => c == '.') ≤ 1) then
    let intPart := l.takeWhile (fun c => c != '.')
    match l.dropWhile (fun c => c != '.') with
    | [] => some ((digitsToNat intPart : Nat) : Rat)
    | _ :: frac =>
      some ((digitsToNat intPart : Rat) + (digitsToNat frac : Rat) / ((10 : Rat) ^ frac.length))
  else none

/-- parse_range from src/app.py lines 94-103.  An empty (falsy) string
returns (None, None); otherwise all maximal numeric substrings are
extracted; unless there are exactly two of them the result is
(None, None); otherwise both are converted by float, a conversion error
yielding (None, None). -/
def parse_range (range_str : String) : Option Rat × Option Rat :=
  if range_str = "" then (none, none)
  else
    match findallNum range_str with
    | [a, b] =>
      match pyFloat? a, pyFloat? b with
      | some x, some y => (some x, some y)
      | _, _ => (none, none)
    | _ => (none, none)

/-- find_match from src/app.py lines 105-112: scan the rows in order,
parse each row's Range field, skip the row when the first component is
None, return the first row whose interval contains the value inclusively.
The branch where parse_range returns a present minimum and an absent
maximum is unreachable (see parse_range_shape); in Python it would raise
a TypeError when comparing the value with None. -/
def find_match : List Record → Rat → Option Record
  | [], _ => none
  | r :: rs, value =>
    match parse_range (Record.get r "Range") with
    | (none, _) => find_match rs value
    | (some mn, some mx) =>
      if mn ≤ value ∧ value ≤ mx then some r else find_match rs value
    | (some _, none) => none

/-- The Boolean test find_match applies to one row: its Range field
parses and the parsed interval contains the value inclusively. -/
def rangeContains (value : Rat) (r : Record) : Bool :=
  match parse_range (Record.get r "Range") with
  | (some mn, some mx) => decide (mn ≤ value) && decide (value ≤ mx)
  | _ => false

/-- Lexicographic comparison of two character lists by code point, the
order Python sorted applies to strings.  Proven equivalent to the
standard string order in lexLe_eq_true_iff and strLe_iff_le below. -/
def lexLe : List Char → List Char → Bool
  | [], _ => true
  | _ :: _, [] => false
  | a :: as, b :: bs =>
    if a < b then true
    else if b < a then false
    else lexLe as bs

/-- Ascending lexicographic comparison of strings by code point, the
order Python sorted produces. -/
def strLe (a b : String) : Bool :=
  lexLe a.data b.data

/-- strLe as a relation, for use with List.insertionSort. -/
def strLeRel (a b : String) : Prop :=
  strLe a b = true

instance : DecidableRel strLeRel :=
  fun a b => inferInstanceAs (Decidable (strLe a b = true))

/-- A row satisfies every (facet, chosen value) selection of the chain by
string equality, the conjunction of equality tests the cascading-filter
endpoints of src/app.py apply. -/
def rowMatchesChain (r : Record) (chain : List (String × String)) : Bool :=
  chain.all (fun p => Record.get r p.1 == p.2)

/-- The cascading-filter value computation shared by the AJAX endpoints
of src/app.py (lines 144-167, 188-222): keep the rows matching every prior
selection whose next facet is non-empty, collect the distinct next-facet
values, and sort them ascending — Python sorted over a set
comprehension. -/
def available_values (rows : List Record) (chain : List (String × String))
    (next_facet : String) : List String :=
  List.insertionSort strLeRel
    (((rows.filter
        (fun row => rowMatchesChain row chain && (Record.get row next_facet != ""))).map
      (fun row => Record.get row next_facet)).dedup)

/-- The detail computation shared by api_magnetic_details and
api_transmitter_details in src/app.py: every row matching the full facet
chain, in original order — a Python list comprehension over rows. -/
def matching_records (rows : List Record) (chain : List (String × String)) : List Record :=
  rows.filter (fun row => rowMatchesChain row chain)

/-- Python str.strip(): remove leading and trailing whitespace
characters. -/
def pyStrip (s : String) : String :=
  String.mk (((s.data.dropWhile Char.isWhitespace).reverse.dropWhile Char.isWhitespace).reverse)

/-- Python request.args.get(name, "").strip(): a missing argument becomes
the empty string, and the value is stripped of surrounding whitespace. -/
def getArg (a : Option String) : String :=
  pyStrip (a.getD "")

/-- api_magnetic_sizes from src/app.py lines 144-148. -/
def api_magnetic_sizes (rows : List Record) : List String :=
  List.insertionSort strLeRel
    (((rows.filter (fun row => Record.get row "Size" != "")).map
      (fun row => Record.get row "Size")).dedup)

/-- api_magnetic_types from src/app.py lines 150-157. -/
def api_magnetic_types (rows : List Record) (size : Option String) : List String :=
  let s := getArg size
  if s = "" then []
  else
    List.insertionSort strLeRel
      (((rows.filter
          (fun row => Record.get row "Size" == s && Record.get row "Type" != "")).map
        (fun row => Record.get row "Type")).dedup)

/-- api_magnetic_liners from src/app.py lines 159-167. -/
def api_magnetic_liners (rows : List Record) (size type_sel : Option String) : List String :=
  let s := getArg size
  let t := getArg type_sel
  if s = "" ∨ t = "" then []
  else
    List.insertionSort strLeRel
      (((rows.filter
          (fun row => Record.get row "Size" == s && Record.get row "Type" == t &&
            Record.get row "Liner Material" != "")).map
        (fun row => Record.get row "Liner Material")).dedup)

/-- api_magnetic_details from src/app.py lines 169-178. -/
def api_magnetic_details (rows : List Record) (size type_sel liner : Option String) :
    List Record :=
  let s := getArg size
  let t := getArg type_sel
  let l := getArg liner
  if s = "" ∨ t = "" ∨ l = "" then []
  else
    rows.filter (fun row =>
      Record.get row "Size" == s && Record.get row "Type" == t &&
        Record.get row "Liner Material" == l)

/-- api_transmitter_details from src/app.py lines 224-242. -/
def api_transmitter_details (rows : List Record)
    (type_sel dia_seal range_val unit_sel : Option String) : List Record :=
  let t := getArg type_sel
  let d := getArg dia_seal
  let rv := getArg range_val
  let u := getArg unit_sel
  if t = "" ∨ d = "" ∨ rv = "" ∨ u = "" then []
  else
    rows.filter (fun row =>
      Record.get row "Type" == t && Record.get row "Dia Seal Type" == d &&
        Record.get row "Range value" == rv &&
        Record.get row "Range in mmwcl or Kg/cm2" == u)

/-! ### Concrete rows used to instantiate the theorems below -/

/-- Record of concrete scenario A of the spec: Range 0-100, Cost 10. -/
def demoRec1 : Record := ⟨[("Range", "0-100"), ("Cost", "10")]⟩

/-- Record of concrete scenario A of the spec: Range 50-150, Cost 20. -/
def demoRec2 : Record := ⟨[("Range", "50-150"), ("Cost", "20")]⟩

/-- Two overlapping ranges, both containing 75. -/
def demoRows : List Record := [demoRec1, demoRec2]

/-- A record whose Range field does not parse. -/
def demoBadRec : Record := ⟨[("Range", "abc"), ("Cost", "10")]⟩

/-- A record with an inverted range: lower bound above upper bound. -/
def demoInvRec : Record := ⟨[("Range", "100-0")]⟩

/-- Records of concrete scenario D of the spec. -/
def demoFacetRows : List Record :=
  [⟨[("Size", "1 inch"), ("Type", "A")]⟩, ⟨[("Size", "1 inch"), ("Type", "B")]⟩,
    ⟨[("Size", "2 inch"), ("Type", "C")]⟩]

/-- The scenario D records in reversed source order. -/
def demoFacetRowsRev : List Record :=
  [⟨[("Size", "2 inch"), ("Type", "C")]⟩, ⟨[("Size", "1 inch"), ("Type", "B")]⟩,
    ⟨[("Size", "1 inch"), ("Type", "A")]⟩]

/-! ### Order bridge: strLe coincides with the lexicographic string order -/

/-- lexLe decides the standard lexicographic order on character lists. -/
theorem lexLe_eq_true_iff (l₁ l₂ : List Char) :
    lexLe l₁ l₂ = true ↔ ¬ List.Lex (· < ·) l₂ l₁ := by
  induction l₁ generalizing l₂ with
  | nil =>
    exact iff_of_true rfl (List.Lex.not_nil_right _ _)
  | cons a as ih =>
    cases l₂ with
    | nil =>
      exact iff_of_false (by simp [lexLe]) (fun h => h List.Lex.nil)
    | cons b bs =>
      show (if a < b then true else if b < a then false else lexLe as bs) = true ↔
        ¬ List.Lex (· < ·) (b :: bs) (a :: as)
      rcases lt_trichotomy a b with h | h | h
      · rw [if_pos h]
        refine iff_of_true rfl (fun hlex => ?_)
        cases hlex with
        | cons h1 => exact lt_irrefl _ h
        | rel h2 => exact lt_asymm h h2
      · subst h
        rw [if_neg (lt_irrefl a), if_neg (lt_irrefl a)]
        haveI : IsIrrefl Char (· < ·) := ⟨lt_irrefl⟩
        simp only [List.Lex.cons_iff]
        exact ih bs
      · rw [if_neg (lt_asymm h), if_pos h]
        exact iff_of_false (by simp) (fun hn => hn (List.Lex.rel h))

/-- strLe decides the standard (lexicographic) order on strings. -/
theorem strLe_iff_le (a b : String) : strLe a b = true ↔ a ≤ b := by
  rw [← not_lt, String.lt_iff_toList_lt]
  exact lexLe_eq_true_iff a.data b.data

instance : IsTotal String strLeRel :=
  ⟨fun a b => by
    rcases le_total a b with h | h
    · exact Or.inl ((strLe_iff_le a b).mpr h)
    · exact Or.inr ((strLe_iff_le b a).mpr h)⟩

instance : IsTrans String strLeRel :=
  ⟨fun a b c hab hbc =>
    (strLe_iff_le a c).mpr (le_trans ((strLe_iff_le a b).mp hab) ((strLe_iff_le b c).mp hbc))⟩

instance : IsAntisymm String strLeRel :=
  ⟨fun a b hab hba => le_antisymm ((strLe_iff_le a b).mp hab) ((strLe_iff_le b a).mp hba)⟩

/-! ### Shape of parse_range results -/

/-- Empty input yields no numeric substrings. -/
theorem findallNum_empty : findallNum "" = [] := rfl

/-- Helper: parse_range yields either two absent components or two
present ones, by case analysis on its control flow. -/
theorem parse_range_shape (s : String) :
    parse_range s = (none, none) ∨ ∃ x y : Rat, parse_range s = (some x, some y) := by
  by_cases h0 : s = ""
  · subst h0
    exact Or.inl rfl
  · rw [parse_range, if_neg h0]
    rcases hf : findallNum s with _ | ⟨a, _ | ⟨b, _ | ⟨c, t⟩⟩⟩
    · exact Or.inl rfl
    · exact Or.inl rfl
    · rcases ha : pyFloat? a with _ | x
      · simp [ha]
      · rcases hb : pyFloat? b with _ | y
        · simp [ha, hb]
        · exact Or.inr ⟨x, y, by simp [ha, hb]⟩
    · exact Or.inl rfl

/-! ### Bridges: each AJAX endpoint instantiates the shared filter engine -/

/-- api_magnetic_sizes is available_values with the empty facet chain. -/
theorem api_magnetic_sizes_eq_available_values (rows : List Record) :
    api_magnetic_sizes rows = available_values rows [] "Size" := by
  have hfilter : (fun (row : Record) => (Record.get row "Size" != "")) =
      (fun row => rowMatchesChain row [] && (Record.get row "Size" != "")) := by
    funext row
    simp [rowMatchesChain]
  rw [api_magnetic_sizes, available_values, hfilter]

/-- api_magnetic_types with a populated selection is available_values with
the one-step chain Size. -/
theorem api_magnetic_types_eq_available_values (rows : List Record) (size : Option String)
    (h : getArg size ≠ "") :
    api_magnetic_types rows size = available_values rows [("Size", getArg size)] "Type" := by
  have hfilter : (fun (row : Record) =>
        Record.get row "Size" == getArg size && (Record.get row "Type" != "")) =
      (fun row => rowMatchesChain row [("Size", getArg size)] &&
        (Record.get row "Type" != "")) := by
    funext row
    simp [rowMatchesChain]
  simp only [api_magnetic_types, available_values]
  rw [if_neg h, hfilter]

/-- api_magnetic_liners with populated selections is available_values with
the two-step chain Size, Type. -/
theorem api_magnetic_liners_eq_available_values (rows : List Record)
    (size type_sel : Option String) (hs : getArg size ≠ "") (ht : getArg type_sel ≠ "") :
    api_magnetic_liners rows size type_sel =
      available_values rows [("Size", getArg size), ("Type", getArg type_sel)]
        "Liner Material" := by
  have hfilter : (fun (row : Record) =>
        Record.get row "Size" == getArg size && Record.get row "Type" == getArg type_sel &&
          (Record.get row "Liner Material" != "")) =
      (fun row => rowMatchesChain row [("Size", getArg size), ("Type", getArg type_sel)] &&
        (Record.get row "Liner Material" != "")) := by
    funext row
    simp [rowMatchesChain, Bool.and_assoc]
  simp only [api_magnetic_liners, available_values]
  rw [if_neg (not_or.mpr ⟨hs, ht⟩), hfilter]

/-- api_magnetic_details with populated selections is matching_records
with the full three-step chain. -/
theorem api_magnetic_details_eq_matching_records (rows : List Record)
    (size type_sel liner : Option String) (hs : getArg size ≠ "") (ht : getArg type_sel ≠ "")
    (hl : getArg liner ≠ "") :
    api_magnetic_details rows size type_sel liner =
      matching_records rows
        [("Size", getArg size), ("Type", getArg type_sel),
          ("Liner Material", getArg liner)] := by
  simp only [api_magnetic_details, matching_records]
  rw [if_neg (not_or.mpr ⟨hs, not_or.mpr ⟨ht, hl⟩⟩)]
  apply List.filter_congr
  intro row _
  simp [rowMatchesChain, Bool.and_assoc]

/-- api_transmitter_details with populated selections is matching_records
with the full four-step chain. -/
theorem api_transmitter_details_eq_matching_records (rows : List Record)
    (type_sel dia_seal range_val unit_sel : Option String) (h1 : getArg type_sel ≠ "")
    (h2 : getArg dia_seal ≠ "") (h3 : getArg range_val ≠ "") (h4 : getArg unit_sel ≠ "") :
    api_transmitter_details rows type_sel dia_seal range_val unit_sel =
      matching_records rows
        [("Type", getArg type_sel), ("Dia Seal Type", getArg dia_seal),
          ("Range value", getArg range_val),
          ("Range in mmwcl or Kg/cm2", getArg unit_sel)] := by
  simp only [api_transmitter_details, matching_records]
  rw [if_neg (not_or.mpr ⟨h1, not_or.mpr ⟨h2, not_or.mpr ⟨h3, h4⟩⟩⟩)]
  apply List.filter_congr
  intro row _
  simp [rowMatchesChain, Bool.and_assoc]

/-! ### The claims -/

/-- Claim C1: for every string whose maximal numeric substrings are
exactly two, each of the shape digits with optionally a single decimal
point (equivalently, each converting as a float), parse_range returns the
two converted values as (lower, upper) in left-to-right textual order —
no reordering or min-max correction, as the witness with first greater
than second shows. -/
theorem parse_range_two_numbers (s a b : String) (x y : Rat)
    (hf : findallNum s = [a, b]) (ha : pyFloat? a = some x) (hb : pyFloat? b = some y) :
    parse_range s = (some x, some y) := by
  have h0 : s ≠ "" := by
    intro h
    subst h
    simp [findallNum_empty] at hf
  rw [parse_range, if_neg h0, hf]
  simp [ha, hb]

/-- Witness for C1 at the input 100-0, whose first number exceeds its
second: the result keeps textual order. -/
theorem parse_range_two_numbers_witness :
    findallNum "100-0" = ["100", "0"] ∧ pyFloat? "100" = some 100 ∧ pyFloat? "0" = some 0 ∧
      parse_range "100-0" = (some 100, some 0) :=
  ⟨by decide, by decide, by decide,
    parse_range_two_numbers "100-0" "100" "0" 100 0 (by decide) (by decide) (by decide)⟩

/-- Claim C2: find_match equals List.find? of the containment test over
the records in the given order — the first record whose Range parses and
whose interval contains the value inclusively is returned, records whose
Range fails to parse are skipped (their test is false), and of two
matching records the earlier one wins; the containment test holds exactly
when the parsed interval satisfies min le value le max. -/
theorem find_match_spec (rows : List Record) (value : Rat) :
    find_match rows value = rows.find? (rangeContains value) ∧
    ∀ r : Record, rangeContains value r = true ↔
      ∃ mn mx : Rat, parse_range (Record.get r "Range") = (some mn, some mx) ∧
        mn ≤ value ∧ value ≤ mx := by
  constructor
  · induction rows with
    | nil => rfl
    | cons r rs ih =>
      rcases parse_range_shape (Record.get r "Range") with h | ⟨mn, mx, h⟩
      · have hc : rangeContains value r = false := by
          rw [rangeContains, h]
        simp only [find_match, h, List.find?_cons, hc]
        exact ih
      · have hc : rangeContains value r = (decide (mn ≤ value) && decide (value ≤ mx)) := by
          rw [rangeContains, h]
        by_cases hv : mn ≤ value ∧ value ≤ mx
        · have hc2 : rangeContains value r = true := by
            rw [hc]
            simp [hv.1, hv.2]
          simp only [find_match, h, List.find?_cons, hc2, if_pos hv]
        · have hc2 : rangeContains value r = false := by
            rw [hc]
            rcases not_and_or.mp hv with hx | hx <;> simp [hx]
          simp only [find_match, h, List.find?_cons, hc2, if_neg hv]
          exact ih
  · intro r
    constructor
    · intro hb
      rw [rangeContains] at hb
      rcases hp : parse_range (Record.get r "Range") with ⟨_ | mn, _ | mx⟩ <;> rw [hp] at hb
      · exact absurd hb (by simp)
      · exact absurd hb (by simp)
      · exact absurd hb (by simp)
      · simp only [Bool.and_eq_true, decide_eq_true_eq] at hb
        exact ⟨mn, mx, rfl, hb.1, hb.2⟩
    · rintro ⟨mn, mx, hp, h1, h2⟩
      rw [rangeContains, hp]
      simp [h1, h2]

/-- Witness for C2: on two records both containing 75, the scan returns
the first one (Cost 10), concrete scenario A of the spec. -/
theorem find_match_spec_witness :
    find_match demoRows 75 = demoRows.find? (rangeContains 75) ∧
      find_match demoRows 75 = some demoRec1 :=
  ⟨(find_match_spec demoRows 75).1, by decide⟩

/-- Claim C3: available_values returns exactly the distinct non-empty
values of the next facet among records matching every prior selection,
in ascending lexicographic order, with no duplicates, and its output is
invariant under permutation of the record sequence. -/
theorem available_values_spec (rows : List Record) (chain : List (String × String))
    (next_facet : String) :
    (∀ v : String, v ∈ available_values rows chain next_facet ↔
      (v ≠ "" ∧ ∃ r : Record, r ∈ rows ∧ rowMatchesChain r chain = true ∧
        Record.get r next_facet = v)) ∧
    List.Sorted (· ≤ ·) (available_values rows chain next_facet) ∧
    (available_values rows chain next_facet).Nodup ∧
    ∀ rows2 : List Record, rows.Perm rows2 →
      available_values rows chain next_facet = available_values rows2 chain next_facet := by
  refine ⟨?_, ?_, ?_, ?_⟩
  · intro v
    rw [available_values, List.mem_insertionSort, List.mem_dedup, List.mem_map]
    constructor
    · rintro ⟨row, hrow, rfl⟩
      rw [List.mem_filter] at hrow
      obtain ⟨hmem, hcond⟩ := hrow
      simp only [Bool.and_eq_true, bne_iff_ne, ne_eq] at hcond
      exact ⟨hcond.2, row, hmem, hcond.1, rfl⟩
    · rintro ⟨hne, row, hmem, hmatch, rfl⟩
      refine ⟨row, ?_, rfl⟩
      rw [List.mem_filter]
      refine ⟨hmem, ?_⟩
      simp only [Bool.and_eq_true, bne_iff_ne, ne_eq]
      exact ⟨hmatch, hne⟩
  · exact List.Pairwise.imp (fun hab => (strLe_iff_le _ _).mp hab)
      (List.sorted_insertionSort strLeRel _)
  · rw [available_values]
    exact (List.perm_insertionSort strLeRel _).symm.nodup (List.nodup_dedup _)
  · intro rows2 hperm
    have hp := (((hperm.filter
        (fun row => rowMatchesChain row chain && (Record.get row next_facet != ""))).map
      (fun row => Record.get row next_facet)).dedup)
    exact List.eq_of_perm_of_sorted
      (((List.perm_insertionSort strLeRel _).trans hp).trans
        (List.perm_insertionSort strLeRel _).symm)
      (List.sorted_insertionSort strLeRel _) (List.sorted_insertionSort strLeRel _)

/-- Witness for C3 at concrete scenario D of the spec, including the
reversed source order giving the same output. -/
theorem available_values_spec_witness :
    ("B" ∈ available_values demoFacetRows [("Size", "1 inch")] "Type" ↔
      ("B" ≠ "" ∧ ∃ r : Record, r ∈ demoFacetRows ∧
        rowMatchesChain r [("Size", "1 inch")] = true ∧ Record.get r "Type" = "B")) ∧
      available_values demoFacetRows [("Size", "1 inch")] "Type" = ["A", "B"] ∧
      available_values demoFacetRows [("Size", "1 inch")] "Type" =
        available_values demoFacetRowsRev [("Size", "1 inch")] "Type" :=
  ⟨(available_values_spec demoFacetRows [("Size", "1 inch")] "Type").1 "B", by decide,
    (available_values_spec demoFacetRows [("Size", "1 inch")] "Type").2.2.2
      demoFacetRowsRev (by decide)⟩

/-- Claim C4: matching_records returns, in the original order (a sublist
of the input), exactly the records equal to all selections — every match,
with multiplicity, not just the first; determinism on equal inputs is
immediate since it is a pure function of its arguments. -/
theorem matching_records_spec (rows : List Record) (chain : List (String × String)) :
    (matching_records rows chain).Sublist rows ∧
    (∀ r : Record, r ∈ matching_records rows chain ↔
      r ∈ rows ∧ rowMatchesChain r chain = true) ∧
    ∀ r : Record, rowMatchesChain r chain = true →
      (matching_records rows chain).count r = rows.count r := by
  refine ⟨List.filter_sublist _, ?_, ?_⟩
  · intro r
    simp [matching_records, List.mem_filter]
  · intro r hr
    rw [matching_records]
    exact List.count_filter hr

/-- Witness for C4 at a concrete full chain over the scenario D rows. -/
theorem matching_records_spec_witness :
    (matching_records demoFacetRows [("Size", "1 inch"), ("Type", "A")]).Sublist demoFacetRows ∧
      matching_records demoFacetRows [("Size", "1 inch"), ("Type", "A")] =
        [⟨[("Size", "1 inch"), ("Type", "A")]⟩] ∧
      (matching_records demoFacetRows [("Size", "1 inch"), ("Type", "A")]).count
          ⟨[("Size", "1 inch"), ("Type", "A")]⟩ =
        demoFacetRows.count ⟨[("Size", "1 inch"), ("Type", "A")]⟩ :=
  ⟨(matching_records_spec demoFacetRows [("Size", "1 inch"), ("Type", "A")]).1, by decide,
    (matching_records_spec demoFacetRows [("Size", "1 inch"), ("Type", "A")]).2.2
      ⟨[("Size", "1 inch"), ("Type", "A")]⟩ (by decide)⟩

/-- Claim C5: whenever the count of maximal numeric substrings differs
from two — zero, one, three or more, including the empty string — the
result is (none, none); parse_range is total over strings by
construction. -/
theorem parse_range_not_two (s : String) (h : (findallNum s).length ≠ 2) :
    parse_range s = (none, none) := by
  by_cases h0 : s = ""
  · subst h0
    rfl
  · rw [parse_range, if_neg h0]
    rcases hf : findallNum s with _ | ⟨a, _ | ⟨b, _ | ⟨c, t⟩⟩⟩
    · rfl
    · rfl
    · rw [hf] at h
      simp at h
    · rfl

/-- Witness for C5 at a three-number range and at the empty string. -/
theorem parse_range_not_two_witness :
    parse_range "0-100-200" = (none, none) ∧ parse_range "" = (none, none) :=
  ⟨parse_range_not_two "0-100-200" (by decide), parse_range_not_two "" (by decide)⟩

/-- Claim C6: each cascading-filter endpoint returns the empty collection
as soon as any of its required facet selections is empty or missing
(stripped to empty), regardless of the record sequence supplied. -/
theorem cascading_degenerate (rows : List Record) (size type_sel liner : Option String) :
    (getArg size = "" → api_magnetic_types rows size = []) ∧
    (getArg size = "" ∨ getArg type_sel = "" → api_magnetic_liners rows size type_sel = []) ∧
    (getArg size = "" ∨ getArg type_sel = "" ∨ getArg liner = "" →
      api_magnetic_details rows size type_sel liner = []) := by
  refine ⟨?_, ?_, ?_⟩
  · intro h
    simp [api_magnetic_types, h]
  · intro h
    rcases h with h | h <;> simp [api_magnetic_liners, h]
  · intro h
    rcases h with h | h | h <;> simp [api_magnetic_details, h]

/-- Witness for C6: a missing size and a whitespace-only type selection
each force the empty result. -/
theorem cascading_degenerate_witness :
    api_magnetic_types demoRows none = [] ∧
      api_magnetic_details demoRows (some "1 inch") (some " ") (some "PTFE") = [] :=
  ⟨(cascading_degenerate demoRows none none none).1 rfl,
    (cascading_degenerate demoRows (some "1 inch") (some " ") (some "PTFE")).2.2
      (Or.inr (Or.inl (by decide)))⟩

/-- Claim C7: find_match returns none whenever every record's Range field
fails to parse — in particular for the empty record sequence, where the
hypothesis is vacuous. -/
theorem find_match_unparsable_none (rows : List Record) (value : Rat)
    (h : ∀ r ∈ rows, (parse_range (Record.get r "Range")).1 = none) :
    find_match rows value = none := by
  induction rows with
  | nil => rfl
  | cons r rs ih =>
    have h1 : (parse_range (Record.get r "Range")).1 = none := h r (by simp)
    rcases hp : parse_range (Record.get r "Range") with ⟨o1, o2⟩
    rw [hp] at h1
    simp only at h1
    subst h1
    simp only [find_match, hp]
    exact ih (fun r2 hr2 => h r2 (List.mem_cons_of_mem r hr2))

/-- Witness for C7 at the empty sequence and at a single unparsable
record. -/
theorem find_match_unparsable_none_witness :
    find_match [] 5 = none ∧ find_match [demoBadRec] 5 = none :=
  ⟨find_match_unparsable_none [] 5 (by simp),
    find_match_unparsable_none [demoBadRec] 5 (by decide)⟩

/-- Claim C8: the numeric pattern does not capture a leading minus sign,
so the input -10 to 10 yields the substrings 10 and 10 and parses to the
interval (10, 10), not (-10, 10). -/
theorem parse_range_no_minus_sign :
    findallNum "-10 to 10" = ["10", "10"] ∧ parse_range "-10 to 10" = (some 10, some 10) ∧
      parse_range "-10 to 10" ≠ (some (-10), some 10) := by
  refine ⟨by decide, by decide, by decide⟩

/-- Claim C9: parse_range returns either a pair with both components
absent or a pair with both present, never exactly one absent — the
invariant that lets find_match test only the lower bound before using
both bounds. -/
theorem parse_range_both_or_neither (s : String) :
    (parse_range s = (none, none) ∨ ∃ x y : Rat, parse_range s = (some x, some y)) ∧
      ((parse_range s).1 = none ↔ (parse_range s).2 = none) := by
  refine ⟨parse_range_shape s, ?_⟩
  rcases parse_range_shape s with h | ⟨x, y, h⟩ <;> simp [h]

/-- Claim C10: a record whose Range parses to an inverted interval (first
component strictly above the second) is never returned by find_match for
any query value and any record sequence, since the inclusive containment
test is unsatisfiable there. -/
theorem find_match_never_inverted (rows : List Record) (value : Rat) (r : Record)
    (mn mx : Rat) (hp : parse_range (Record.get r "Range") = (some mn, some mx))
    (hlt : mx < mn) : find_match rows value ≠ some r := by
  induction rows with
  | nil => simp [find_match]
  | cons r0 rs ih =>
    rcases parse_range_shape (Record.get r0 "Range") with h | ⟨a, b, h⟩
    · simp only [find_match, h]
      exact ih
    · simp only [find_match, h]
      by_cases hv : a ≤ value ∧ value ≤ b
      · rw [if_pos hv]
        intro heq
        have hr : r0 = r := by
          injection heq
        subst hr
        rw [h] at hp
        simp only [Prod.mk.injEq, Option.some.injEq] at hp
        obtain ⟨h1, h2⟩ := hp
        subst h1
        subst h2
        exact absurd (le_trans hv.1 hv.2) (not_le.mpr hlt)
      · rw [if_neg hv]
        exact ih

/-- Witness for C10 at the inverted range 100-0 and the value 50. -/
theorem find_match_never_inverted_witness :
    find_match [demoInvRec] 50 ≠ some demoInvRec :=
  find_match_never_inverted [demoInvRec] 50 demoInvRec 100 0 (by decide) (by decide)
